import Mathlib

/-!
Verification of the generative-table router (services/api/src/owl/routers/gen_table.py).

The router's pure decision logic and orchestration sequences are embedded as
executable Lean definitions.  External collaborators (the Lance storage engine,
LLM clients, embedding clients, file loaders/splitters) appear as explicit
function or value parameters, exactly where the Python calls out to them.
-/

namespace GenTable

/-- The router's settings object (class Config in the source), with the source's
default values. -/
structure Config where
  owl_reindex_period_sec : Nat := 60
  owl_immediate_reindex_max_rows : Nat := 2000
  owl_optimize_period_sec : Nat := 60
  owl_remove_version_older_than_days : Nat := 7
  owl_concurrent_rows_batch_size : Nat := 3
  owl_concurrent_cols_batch_size : Nat := 5

/-- The module-level config instance, all fields at their defaults. -/
def config : Config := {}

/-- Table kinds handled by _get_gen_table (p.TableType). -/
inductive TableType
  | action
  | knowledge
  | chat
deriving DecidableEq, Repr

/-- Python truthiness of an Optional[bool] value: only True is truthy. -/
def pyOptBoolTruthy : Option Bool → Bool
  | some b => b
  | none => false

/-- The reindex-scheduling condition shared by add_rows, regen_rows, update_row
and delete_rows, a literal transcription of
if body.reindex or (body.reindex is None and table.count_rows(id) <= config.owl_immediate_reindex_max_rows). -/
def reindex_condition (reindex : Option Bool) (rowCount threshold : Nat) : Bool :=
  pyOptBoolTruthy reindex || (reindex == none && decide (rowCount ≤ threshold))

/-- p.RowAddRequest: the payload type of one row is a parameter since the
router treats row payloads opaquely. -/
structure RowAddRequest (ρ : Type) where
  table_id : String
  data : List ρ
  stream : Bool
  reindex : Option Bool
deriving DecidableEq

/-- p.RowRegenRequest. -/
structure RowRegenRequest where
  table_id : String
  row_ids : List String
  stream : Bool
  reindex : Option Bool
deriving DecidableEq

/-- Observable effects of one add_rows handler call: the list of background
create_indexes tasks handed to bg_tasks (fire-and-forget), and the body passed
on to MultiRowsGenExecutor. -/
structure AddRowsEffects (ρ : Type) where
  bgTasks : List String
  executorBody : RowAddRequest ρ
deriving DecidableEq

/-- The add_rows handler: schedules a background create_indexes task for
body.table_id when the reindex condition holds, then hands the body to the
generation executor (modelled as data; the executor is an external
collaborator). -/
def add_rows (body : RowAddRequest ρ) (rowCount threshold : Nat) : AddRowsEffects ρ :=
  { bgTasks :=
      if reindex_condition body.reindex rowCount threshold then [body.table_id] else []
    executorBody := body }

/-- Observable effects of one regen_rows handler call. -/
structure RegenRowsEffects where
  bgTasks : List String
  executorBody : RowRegenRequest
deriving DecidableEq

/-- The regen_rows handler: identical reindex-scheduling logic to add_rows. -/
def regen_rows (body : RowRegenRequest) (rowCount threshold : Nat) : RegenRowsEffects :=
  { bgTasks :=
      if reindex_condition body.reindex rowCount threshold then [body.table_id] else []
    executorBody := body }

/-- C1: for every add_rows or regen_rows request, a background create_indexes
task for the request's table is scheduled exactly when the reindex intent is
force-yes (reindex = some true), or the intent is auto (reindex = none) and the
table's row count is at or below the immediate-reindex threshold; with force-no
intent, or auto intent above the threshold, no task is scheduled.  The
configured default threshold is 2000. -/
theorem add_regen_rows_reindex_policy (body : RowAddRequest Unit) (rbody : RowRegenRequest)
    (rowCount threshold : Nat) :
    ((add_rows body rowCount threshold).bgTasks = [body.table_id] ↔
      (body.reindex = some true ∨ (body.reindex = none ∧ rowCount ≤ threshold)))
    ∧ ((add_rows body rowCount threshold).bgTasks = [] ↔
      (body.reindex = some false ∨ (body.reindex = none ∧ threshold < rowCount)))
    ∧ ((regen_rows rbody rowCount threshold).bgTasks = [rbody.table_id] ↔
      (rbody.reindex = some true ∨ (rbody.reindex = none ∧ rowCount ≤ threshold)))
    ∧ ((regen_rows rbody rowCount threshold).bgTasks = [] ↔
      (rbody.reindex = some false ∨ (rbody.reindex = none ∧ threshold < rowCount)))
    ∧ config.owl_immediate_reindex_max_rows = 2000 := by
  refine ⟨?_, ?_, ?_, ?_, rfl⟩ <;>
    simp only [add_rows, regen_rows, reindex_condition, pyOptBoolTruthy]
  · rcases h : body.reindex with _ | b
    · simp [h]
    · cases b <;> simp [h]
  · rcases h : body.reindex with _ | b
    · simp [h]
    · cases b <;> simp [h]
  · rcases h : rbody.reindex with _ | b
    · simp [h]
    · cases b <;> simp [h]
  · rcases h : rbody.reindex with _ | b
    · simp [h]
    · cases b <;> simp [h]

/-! ## Maintenance scheduler (periodic_reindex, periodic_optimize) -/

/-- Outcome of a call into the storage engine that either returns a Bool or
raises an exception. -/
inductive SubResult
  | ret (b : Bool)
  | exnRaised
deriving DecidableEq, Repr

/-- Per-table outcomes counted by the periodic jobs. -/
inductive Outcome
  | ok
  | skipped
  | failed
deriving DecidableEq, Repr

/-- One item yielded by _iter_all_tables: a generative table (with a session
and its meta id) or the per-project file table (yielded with session = None and
meta = None). -/
inductive IterEntry
  | genTable (id : String)
  | fileTable
deriving DecidableEq, Repr

/-- The meta id of an entry as it is passed to compact_files and
cleanup_old_versions: the file table branch passes no id. -/
def IterEntry.metaId : IterEntry → Option String
  | .genTable id => some id
  | .fileTable => none

/-- State of one periodic_reindex tick. -/
structure ReindexTick where
  lockAttempts : Nat
  createIndexCalls : List String
  numOk : Nat
  numSkipped : Nat
  numFailed : Nat
  lockSkipped : Bool
deriving DecidableEq, Repr

/-- One periodic_reindex tick.  The FileLock is non-blocking: if it is already
held the with-block raises Timeout immediately, the tick logs a skipped message
and visits no table.  Otherwise every generative table gets one create_indexes
call (entries with session = None, i.e. the file table, are skipped), a
per-table exception being counted as failed without aborting the loop.
createIndexes maps each table id to the engine's response. -/
def reindex_step (createIndexes : String → SubResult) (acc : ReindexTick)
    (e : IterEntry) : ReindexTick := -- loop body of the tick
  match e with
  | .fileTable => acc
  | .genTable id =>
    let acc := { acc with createIndexCalls := acc.createIndexCalls ++ [id] }
    match createIndexes id with
    | .ret true => { acc with numOk := acc.numOk + 1 }
    | .ret false => { acc with numSkipped := acc.numSkipped + 1 }
    | .exnRaised => { acc with numFailed := acc.numFailed + 1 }

def periodic_reindex (lockHeld : Bool) (entries : List IterEntry)
    (createIndexes : String → SubResult) : ReindexTick :=
  if lockHeld then
    { lockAttempts := 1, createIndexCalls := [], numOk := 0, numSkipped := 0, numFailed := 0
      lockSkipped := true }
  else
    entries.foldl (reindex_step createIndexes)
      { lockAttempts := 1, createIndexCalls := [], numOk := 0, numSkipped := 0, numFailed := 0
        lockSkipped := false }

/-- Trace of one table visit of periodic_optimize: the outcome counted, and
whether each sub-step was actually invoked. -/
structure OptVisit where
  outcome : Outcome
  compactCalled : Bool
  cleanupCalled : Bool
deriving DecidableEq, Repr

/-- One table visit of periodic_optimize, transcribing
done = True; done = done and compact_files(...); done = done and cleanup_old_versions(...).
Python's `and` short-circuits: when compact_files returns False (or raises),
cleanup_old_versions is not called.  An exception in either call is caught by
the per-table handler and counted as failed. -/
def optimize_visit (compact cleanup : SubResult) : OptVisit :=
  match compact with
  | .exnRaised => { outcome := .failed, compactCalled := true, cleanupCalled := false }
  | .ret false => { outcome := .skipped, compactCalled := true, cleanupCalled := false }
  | .ret true =>
    match cleanup with
    | .exnRaised => { outcome := .failed, compactCalled := true, cleanupCalled := true }
    | .ret b =>
      { outcome := if b then .ok else .skipped, compactCalled := true, cleanupCalled := true }

/-- State of one periodic_optimize tick. -/
structure OptimizeTick where
  lockAttempts : Nat
  compactCalls : List (Option String)
  cleanupCalls : List (Option String)
  numOk : Nat
  numSkipped : Nat
  numFailed : Nat
  lockSkipped : Bool
deriving DecidableEq, Repr

/-- One periodic_optimize tick.  Same non-blocking lock discipline as
periodic_reindex; every entry (file table included) is visited with
optimize_visit; compact and cleanup map each entry's meta id to the engine's
response. -/
def optimize_step (compact cleanup : Option String → SubResult) (acc : OptimizeTick)
    (e : IterEntry) : OptimizeTick := -- loop body of the tick
  let k := e.metaId
  let v := optimize_visit (compact k) (cleanup k)
  { acc with
    compactCalls := acc.compactCalls ++ (if v.compactCalled then [k] else [])
    cleanupCalls := acc.cleanupCalls ++ (if v.cleanupCalled then [k] else [])
    numOk := acc.numOk + (if v.outcome = .ok then 1 else 0)
    numSkipped := acc.numSkipped + (if v.outcome = .skipped then 1 else 0)
    numFailed := acc.numFailed + (if v.outcome = .failed then 1 else 0) }

def periodic_optimize (lockHeld : Bool) (entries : List IterEntry)
    (compact cleanup : Option String → SubResult) : OptimizeTick :=
  if lockHeld then
    { lockAttempts := 1, compactCalls := [], cleanupCalls := [], numOk := 0, numSkipped := 0
      numFailed := 0, lockSkipped := true }
  else
    entries.foldl (optimize_step compact cleanup)
      { lockAttempts := 1, compactCalls := [], cleanupCalls := [], numOk := 0, numSkipped := 0
        numFailed := 0, lockSkipped := false }

theorem reindex_foldl_invariants (createIndexes : String → SubResult)
    (entries : List IterEntry) :
    ∀ acc : ReindexTick,
      (entries.foldl (reindex_step createIndexes) acc).createIndexCalls
        = acc.createIndexCalls ++ entries.filterMap IterEntry.metaId
      ∧ (entries.foldl (reindex_step createIndexes) acc).lockAttempts = acc.lockAttempts
      ∧ (entries.foldl (reindex_step createIndexes) acc).lockSkipped = acc.lockSkipped := by
  induction entries with
  | nil => intro acc; simp
  | cons e es ih =>
    intro acc
    simp only [List.foldl_cons]
    obtain ⟨ih1, ih2, ih3⟩ := ih (reindex_step createIndexes acc e)
    refine ⟨?_, ?_, ?_⟩
    · rw [ih1]
      rcases e with id | _
      · rcases h : createIndexes id with ⟨_ | _⟩ | _ <;>
          simp [reindex_step, IterEntry.metaId, h]
      · simp [reindex_step, IterEntry.metaId]
    · rw [ih2]
      rcases e with id | _
      · rcases h : createIndexes id with ⟨_ | _⟩ | _ <;> simp [reindex_step, h]
      · simp [reindex_step]
    · rw [ih3]
      rcases e with id | _
      · rcases h : createIndexes id with ⟨_ | _⟩ | _ <;> simp [reindex_step, h]
      · simp [reindex_step]

theorem optimize_step_invariants (compact cleanup : Option String → SubResult)
    (acc : OptimizeTick) (e : IterEntry) :
    (optimize_step compact cleanup acc e).numOk
      + (optimize_step compact cleanup acc e).numSkipped
      + (optimize_step compact cleanup acc e).numFailed
      = acc.numOk + acc.numSkipped + acc.numFailed + 1
    ∧ (optimize_step compact cleanup acc e).lockAttempts = acc.lockAttempts
    ∧ (optimize_step compact cleanup acc e).lockSkipped = acc.lockSkipped := by
  simp only [optimize_step]
  cases h : (optimize_visit (compact e.metaId) (cleanup e.metaId)).outcome <;>
    simp [h] <;> omega

theorem optimize_foldl_invariants (compact cleanup : Option String → SubResult)
    (entries : List IterEntry) :
    ∀ acc : OptimizeTick,
      (entries.foldl (optimize_step compact cleanup) acc).numOk
        + (entries.foldl (optimize_step compact cleanup) acc).numSkipped
        + (entries.foldl (optimize_step compact cleanup) acc).numFailed
        = acc.numOk + acc.numSkipped + acc.numFailed + entries.length
      ∧ (entries.foldl (optimize_step compact cleanup) acc).lockAttempts = acc.lockAttempts
      ∧ (entries.foldl (optimize_step compact cleanup) acc).lockSkipped = acc.lockSkipped := by
  induction entries with
  | nil => intro acc; simp
  | cons e es ih =>
    intro acc
    simp only [List.foldl_cons, List.length_cons]
    obtain ⟨ih1, ih2, ih3⟩ := ih (optimize_step compact cleanup acc e)
    obtain ⟨hs1, hs2, hs3⟩ := optimize_step_invariants compact cleanup acc e
    refine ⟨?_, ?_, ?_⟩
    · rw [ih1, hs1]; omega
    · rw [ih2, hs2]
    · rw [ih3, hs3]

/-- C5 counterexample: with compaction returning False and version pruning
ready to return True, the per-table visit never calls cleanup_old_versions
(the done-flag conjunction short-circuits), so the claim that both sub-steps
are performed for every visited table is false; the outcome is skipped. -/
theorem optimize_visit_short_circuit_cex :
    (optimize_visit (SubResult.ret false) (SubResult.ret true)).cleanupCalled = false
    ∧ (optimize_visit (SubResult.ret false) (SubResult.ret true)).outcome = Outcome.skipped := by
  exact ⟨rfl, rfl⟩

/-- C5 (amended): for every table visited by the periodic optimize job,
compaction is always attempted, but version pruning runs only when compaction
returned True (the done-flag conjunction short-circuits); the outcome is ok iff
both sub-steps returned True, skipped iff a performed sub-step returned False
without exception, failed iff a performed sub-step raised; failures are
isolated and counted: every table of the enumeration receives exactly one
outcome, so the three counters always sum to the number of tables. -/
theorem periodic_optimize_outcome_policy (c k : SubResult) (entries : List IterEntry)
    (compact cleanup : Option String → SubResult) :
    (optimize_visit c k).compactCalled = true
    ∧ ((optimize_visit c k).cleanupCalled = true ↔ c = SubResult.ret true)
    ∧ ((optimize_visit c k).outcome = Outcome.ok
        ↔ (c = SubResult.ret true ∧ k = SubResult.ret true))
    ∧ ((optimize_visit c k).outcome = Outcome.skipped
        ↔ (c = SubResult.ret false ∨ (c = SubResult.ret true ∧ k = SubResult.ret false)))
    ∧ ((optimize_visit c k).outcome = Outcome.failed
        ↔ (c = SubResult.exnRaised ∨ (c = SubResult.ret true ∧ k = SubResult.exnRaised)))
    ∧ (periodic_optimize false entries compact cleanup).numOk
        + (periodic_optimize false entries compact cleanup).numSkipped
        + (periodic_optimize false entries compact cleanup).numFailed
        = entries.length := by
  have hcount := (optimize_foldl_invariants compact cleanup entries
    { lockAttempts := 1, compactCalls := [], cleanupCalls := [], numOk := 0, numSkipped := 0
      numFailed := 0, lockSkipped := false }).1
  refine ⟨?_, ?_, ?_, ?_, ?_, ?_⟩
  · rcases c with ⟨_ | _⟩ | _ <;> rcases k with ⟨_ | _⟩ | _ <;> simp [optimize_visit]
  · rcases c with ⟨_ | _⟩ | _ <;> rcases k with ⟨_ | _⟩ | _ <;> simp [optimize_visit]
  · rcases c with ⟨_ | _⟩ | _ <;> rcases k with ⟨_ | _⟩ | _ <;> simp [optimize_visit]
  · rcases c with ⟨_ | _⟩ | _ <;> rcases k with ⟨_ | _⟩ | _ <;> simp [optimize_visit]
  · rcases c with ⟨_ | _⟩ | _ <;> rcases k with ⟨_ | _⟩ | _ <;> simp [optimize_visit]
  · simpa [periodic_optimize] using hcount

/-- C6: each periodic job attempts its non-blocking lock exactly once per tick;
a tick whose lock is already held performs zero table visits (no
create_indexes, compact_files or cleanup_old_versions call) and logs a skipped
message; a tick that does run visits tables without retrying the lock, and the
reindex job calls create_indexes exactly on the generative tables (the file
table entry, yielded without a session, is skipped as index-exempt). -/
theorem periodic_jobs_lock_and_exemption (entries : List IterEntry)
    (createIndexes : String → SubResult) (compact cleanup : Option String → SubResult) :
    (periodic_reindex true entries createIndexes).lockAttempts = 1
    ∧ (periodic_reindex true entries createIndexes).createIndexCalls = []
    ∧ (periodic_reindex true entries createIndexes).lockSkipped = true
    ∧ (periodic_optimize true entries compact cleanup).lockAttempts = 1
    ∧ (periodic_optimize true entries compact cleanup).compactCalls = []
    ∧ (periodic_optimize true entries compact cleanup).cleanupCalls = []
    ∧ (periodic_optimize true entries compact cleanup).lockSkipped = true
    ∧ (periodic_reindex false entries createIndexes).lockAttempts = 1
    ∧ (periodic_optimize false entries compact cleanup).lockAttempts = 1
    ∧ (periodic_reindex false entries createIndexes).createIndexCalls
        = entries.filterMap IterEntry.metaId := by
  obtain ⟨h1, h2, _⟩ := reindex_foldl_invariants createIndexes entries
    { lockAttempts := 1, createIndexCalls := [], numOk := 0, numSkipped := 0, numFailed := 0
      lockSkipped := false }
  obtain ⟨_, h4, _⟩ := optimize_foldl_invariants compact cleanup entries
    { lockAttempts := 1, compactCalls := [], cleanupCalls := [], numOk := 0, numSkipped := 0
      numFailed := 0, lockSkipped := false }
  refine ⟨rfl, rfl, rfl, rfl, rfl, rfl, rfl, ?_, ?_, ?_⟩
  · simpa [periodic_reindex] using h2
  · simpa [periodic_optimize] using h4
  · simpa [periodic_reindex] using h1

/-! ## Row update (update_row) -/

/-- Domain and unexpected errors surfaced by the handlers.  tableSchemaFixed is
the client-correctable TableSchemaFixedError; runtimeError is Python's
RuntimeError; indexError is the IndexError raised by indexing an empty list;
externalError stands for an exception escaping an external collaborator. -/
inductive OwlError
  | tableSchemaFixed (msg : String)
  | runtimeError (msg : String)
  | indexError
  | externalError (msg : String)
deriving DecidableEq, Repr

/-- p.RowUpdateRequest: the values of the data mapping are opaque to the
handler (only the keys are inspected), so they are modelled as strings. -/
structure RowUpdateRequest where
  table_id : String
  row_id : String
  data : List (String × String)
  reindex : Option Bool
deriving DecidableEq

/-- Storage calls made by the update_row handler. -/
inductive UpdateCall
  | updateRows (tableId : String) (whereCond : String) (values : List (String × String))
  | bgCreateIndexes (tableId : String)
deriving DecidableEq

/-- The message of the TableSchemaFixedError raised by update_row. -/
def fixedColsMsg : String := "Cannot update 'Text Embed' or 'Title Embed'."

/-- The where-condition string update_row passes to update_rows. -/
def updateWhereCond (rowId : String) : String := "`ID` = '" ++ rowId ++ "'"

/-- ASCII lowercasing of one character, as Python's str.lower acts on the
ASCII range (the only range the compared literals use). -/
def lowerChar (c : Char) : Char :=
  if 'A' <= c && c <= 'Z' then Char.ofNat (c.toNat + 32) else c

/-- ASCII lowercasing of a string (Python's n.lower() in update_row). -/
def lowerStr (s : String) : String := String.mk (s.data.map lowerChar)

/-- The fixed-embedding-column guard of update_row: the request targets a
knowledge table and some data key lowercases to "text embed" or "title embed". -/
def fixed_cols_violation (tableType : TableType) (data : List (String × String)) : Bool :=
  tableType == TableType.knowledge
    && (let colNames := data.map (fun kv => lowerStr kv.1)
        colNames.contains ("text embed") || colNames.contains ("title embed"))

/-- The update_row handler: on a knowledge table, if any data key lowercases to
"text embed" or "title embed", TableSchemaFixedError is raised before
update_rows is called; otherwise update_rows runs and a background
create_indexes task is scheduled under the shared reindex condition. -/
def update_row (tableType : TableType) (body : RowUpdateRequest)
    (rowCount threshold : Nat) : Except OwlError (List UpdateCall) :=
  if fixed_cols_violation tableType body.data then
    .error (.tableSchemaFixed fixedColsMsg)
  else
    .ok ([.updateRows body.table_id (updateWhereCond body.row_id) body.data]
      ++ (if reindex_condition body.reindex rowCount threshold
          then [.bgCreateIndexes body.table_id] else []))

theorem update_row_guard_bool (tableType : TableType) (body : RowUpdateRequest) :
    fixed_cols_violation tableType body.data = true
    ↔ (tableType = TableType.knowledge
        ∧ ∃ kv ∈ body.data, lowerStr kv.1 = "text embed" ∨ lowerStr kv.1 = "title embed") := by
  simp only [fixed_cols_violation]
  rw [Bool.and_eq_true, beq_iff_eq, Bool.or_eq_true, List.elem_iff, List.elem_iff]
  simp only [List.mem_map]
  constructor
  · rintro ⟨ht, ⟨kv, hkv, hk⟩ | ⟨kv, hkv, hk⟩⟩
    · exact ⟨ht, kv, hkv, Or.inl hk⟩
    · exact ⟨ht, kv, hkv, Or.inr hk⟩
  · rintro ⟨ht, kv, hkv, hk | hk⟩
    · exact ⟨ht, Or.inl ⟨kv, hkv, hk⟩⟩
    · exact ⟨ht, Or.inr ⟨kv, hkv, hk⟩⟩

/-- C7: an update_row request against a knowledge table whose data payload
contains a key equal, case-insensitively, to Text Embed or Title Embed raises
TableSchemaFixedError and performs no storage call at all (in particular
update_rows is never invoked, leaving the rows unchanged); any other request
proceeds, invoking update_rows on the identified row. -/
theorem update_row_fixed_column_guard (tableType : TableType) (body : RowUpdateRequest)
    (rowCount threshold : Nat) :
    (update_row tableType body rowCount threshold = .error (.tableSchemaFixed fixedColsMsg)
      ↔ (tableType = TableType.knowledge
          ∧ ∃ kv ∈ body.data, lowerStr kv.1 = "text embed" ∨ lowerStr kv.1 = "title embed"))
    ∧ (¬ (tableType = TableType.knowledge
          ∧ ∃ kv ∈ body.data, lowerStr kv.1 = "text embed" ∨ lowerStr kv.1 = "title embed") →
        update_row tableType body rowCount threshold
          = .ok ([.updateRows body.table_id (updateWhereCond body.row_id) body.data]
            ++ (if reindex_condition body.reindex rowCount threshold
                then [.bgCreateIndexes body.table_id] else []))) := by
  cases hc : fixed_cols_violation tableType body.data with
  | true =>
    have hprop := (update_row_guard_bool tableType body).mp hc
    have hval : update_row tableType body rowCount threshold
        = .error (.tableSchemaFixed fixedColsMsg) := by
      simp [update_row, hc]
    exact ⟨by rw [hval]; exact iff_of_true rfl hprop, fun h => absurd hprop h⟩
  | false =>
    have hprop : ¬ (tableType = TableType.knowledge
        ∧ ∃ kv ∈ body.data, lowerStr kv.1 = "text embed" ∨ lowerStr kv.1 = "title embed") := by
      intro h
      have hcontra := (update_row_guard_bool tableType body).mpr h
      rw [hc] at hcontra
      exact Bool.false_ne_true hcontra
    have hval : update_row tableType body rowCount threshold
        = .ok ([.updateRows body.table_id (updateWhereCond body.row_id) body.data]
            ++ (if reindex_condition body.reindex rowCount threshold
                then [.bgCreateIndexes body.table_id] else [])) := by
      simp [update_row, hc]
    exact ⟨by rw [hval]; exact iff_of_false (by simp) hprop, fun _ => hval⟩

/-- C7 witness: on a knowledge table, an update touching the key
"tiTLE eMbed" is rejected with TableSchemaFixedError, while an update touching
only the key "Text" goes through to update_rows. -/
theorem update_row_fixed_column_guard_witness :
    (TableType.knowledge = TableType.knowledge
      ∧ ∃ kv ∈ [(("tiTLE eMbed" : String), ("v" : String))],
          lowerStr kv.1 = "text embed" ∨ lowerStr kv.1 = "title embed")
    ∧ update_row TableType.knowledge
        { table_id := "t1", row_id := "r1", data := [("tiTLE eMbed", "v")], reindex := none }
        5 2000
      = .error (.tableSchemaFixed fixedColsMsg)
    ∧ (¬ (TableType.knowledge = TableType.knowledge
          ∧ ∃ kv ∈ [(("Text" : String), ("v" : String))],
              lowerStr kv.1 = "text embed" ∨ lowerStr kv.1 = "title embed"))
    ∧ update_row TableType.knowledge
        { table_id := "t1", row_id := "r1", data := [("Text", "v")], reindex := none }
        5 2000
      = .ok [.updateRows ("t1") (updateWhereCond ("r1")) [("Text", "v")],
             .bgCreateIndexes ("t1")] := by
  have hbad : TableType.knowledge = TableType.knowledge
      ∧ ∃ kv ∈ [(("tiTLE eMbed" : String), ("v" : String))],
          lowerStr kv.1 = "text embed" ∨ lowerStr kv.1 = "title embed" := by
    decide
  have hok : ¬ (TableType.knowledge = TableType.knowledge
      ∧ ∃ kv ∈ [(("Text" : String), ("v" : String))],
          lowerStr kv.1 = "text embed" ∨ lowerStr kv.1 = "title embed") := by
    decide
  refine ⟨hbad, ?_, hok, ?_⟩
  · exact (update_row_fixed_column_guard TableType.knowledge
      { table_id := "t1", row_id := "r1", data := [("tiTLE eMbed", "v")], reindex := none }
      5 2000).1.mpr hbad
  · have h := (update_row_fixed_column_guard TableType.knowledge
      { table_id := "t1", row_id := "r1", data := [("Text", "v")], reindex := none }
      5 2000).2 hok
    simpa [reindex_condition, pyOptBoolTruthy] using h

/-! ## File ingestion (_add_file)

External collaborators are parameters: load_file and split_chunks are
summarised by the chunk-text list they produce, model_names by its returned
list (or the exception it raises), predict by its returned text (or the
exception it raises), and the per-column embedder (CloudEmbedder plus the
np.asarray dtype conversion and gen_config validation, assumed well-formed)
by a function from a column and a text list to a vector list. -/

/-- One column of the knowledge table's meta, as _add_file reads it:
its id, vector length (0 for non-embedding columns) and dtype string. -/
structure Col where
  id : String
  vlen : Nat
  dtype : String
deriving DecidableEq, Repr

/-- One knowledge-table row as constructed by _add_file.  The fields map to
the row keys Text, Text Embed, Title, Title Embed and File ID. -/
structure KRow (V : Type) where
  text : String
  textEmbed : V
  title : String
  titleEmbed : V
  fileId : String
deriving DecidableEq, Repr

/-- A double-quote character as a string. -/
def dq : String := "\""

/-- The title produced by the try/except block around predict: on success the
response text is stripped and one surrounding pair of double quotes removed;
on any exception the title falls back to the empty string. -/
def extract_title (predictResult : Except OwlError String) : String :=
  match predictResult with
  | .error _ => ""
  | .ok text =>
    let t := text.trim
    if t.startsWith dq && t.endsWith dq then (t.drop 1).dropRight 1 else t

/-- The loop body of the embedding-column scan in _add_file: non-embedding
columns (vlen = 0) are skipped; a column with id Title Embed sets the title
embedding to the first vector returned for the single-element text list
[title] (Python indexes [0]; an empty embedder response, which would raise an
IndexError, is modelled as leaving the title embedding unset — both abort with
no insert); a column with id Text Embed sets the text embeddings to the
vectors returned for all chunk texts; any other embedding column is ignored. -/
def embed_col_step (embed : Col → List String → List V) (title : String)
    (chunkTexts : List String) (acc : Option V × List V) (col : Col) : Option V × List V :=
  if col.vlen = 0 then acc
  else if col.id = "Title Embed" then ((embed col [title]).head?, acc.2)
  else if col.id = "Text Embed" then (acc.1, embed col chunkTexts)
  else acc

/-- The whole embedding-column scan: title_embed starts at None and
text_embeds at the empty list. -/
def scan_embed_cols (embed : Col → List String → List V) (title : String)
    (chunkTexts : List String) (cols : List Col) : Option V × List V :=
  cols.foldl (embed_col_step embed title chunkTexts) (none, [])

/-- Synchronous calls made inside _add_file's table session. -/
inductive SyncCall (V : Type)
  | addRowsCall (body : RowAddRequest (KRow V))
  | createIndexesCall (tableId : String)
deriving DecidableEq

/-- Result of a successful _add_file run: the constructed rows, the
synchronous calls in order, and the background tasks scheduled by the nested
add_rows call. -/
structure AddFileResult (V : Type) where
  rows : List (KRow V)
  syncCalls : List (SyncCall V)
  bgTasks : List String
deriving DecidableEq

/-- The generic user-facing message of the RuntimeError raised when the
embedding-role invariant is violated. -/
def ingestErrorMsg : String :=
  "Sorry we encountered an issue during embedding. Please try again later."

/-- The title-extraction excerpt: concatenation of the first 8 chunk texts. -/
def excerpt_of (chunks : List String) : String := String.join (chunks.take 8)

/-- The _add_file ingestion pipeline.  modelNames is the model_names call:
its exception propagates, and an empty model list makes model[0] raise an
IndexError — neither is covered by the title fallback, which wraps only
predict.  On the success path: scan the embedding columns, require a title
embedding and a non-empty text-embedding list (else RuntimeError, nothing
inserted), build one row per chunk zipped with its text embedding, submit
them in a single non-streaming add_rows call, then call create_indexes
synchronously. -/
def _add_file (table_id fileId : String) (chunks : List String)
    (modelNames : Except OwlError (List String))
    (predictResult : Except OwlError String)
    (embed : Col → List String → List V)
    (cols : List Col) (rowCount threshold : Nat) : Except OwlError (AddFileResult V) :=
  match modelNames with
  | .error e => .error e
  | .ok [] => .error .indexError
  | .ok (_ :: _) =>
    let title := extract_title predictResult
    match scan_embed_cols embed title chunks cols with
    | (none, _) => .error (.runtimeError ingestErrorMsg)
    | (some titleEmbed, textEmbeds) =>
      if textEmbeds.isEmpty then .error (.runtimeError ingestErrorMsg)
      else
        let rows := List.zipWith
          (fun chunk textEmbed =>
            { text := chunk, textEmbed := textEmbed, title := title
              titleEmbed := titleEmbed, fileId := fileId }) chunks textEmbeds
        let body : RowAddRequest (KRow V) :=
          { table_id := table_id, data := rows, stream := false, reindex := none }
        let ar := add_rows body rowCount threshold
        .ok { rows := rows
              syncCalls := [.addRowsCall body, .createIndexesCall table_id]
              bgTasks := ar.bgTasks }

theorem scan_fst_cases (embed : Col → List String → List V) (title : String)
    (chunkTexts : List String) (cols : List Col) :
    ∀ acc : Option V × List V,
      (cols.foldl (embed_col_step embed title chunkTexts) acc).1 = acc.1
      ∨ ∃ c ∈ cols, c.vlen ≠ 0 ∧ c.id = "Title Embed"
          ∧ (cols.foldl (embed_col_step embed title chunkTexts) acc).1
            = (embed c [title]).head? := by
  induction cols with
  | nil => intro acc; exact Or.inl rfl
  | cons c cs ih =>
    intro acc
    simp only [List.foldl_cons]
    rcases ih (embed_col_step embed title chunkTexts acc c) with h | ⟨c2, hc2, hv, hid, hval⟩
    · rw [h]
      by_cases h0 : c.vlen = 0
      · exact Or.inl (by simp [embed_col_step, h0])
      · by_cases h1 : c.id = "Title Embed"
        · exact Or.inr ⟨c, List.mem_cons_self c cs, h0, h1,
            by simp [embed_col_step, h0, h1]⟩
        · by_cases h2 : c.id = "Text Embed"
          · exact Or.inl (by simp [embed_col_step, h0, h1, h2])
          · exact Or.inl (by simp [embed_col_step, h0, h1, h2])
    · exact Or.inr ⟨c2, List.mem_cons_of_mem c hc2, hv, hid, hval⟩

theorem scan_snd_cases (embed : Col → List String → List V) (title : String)
    (chunkTexts : List String) (cols : List Col) :
    ∀ acc : Option V × List V,
      (cols.foldl (embed_col_step embed title chunkTexts) acc).2 = acc.2
      ∨ ∃ c ∈ cols, c.vlen ≠ 0 ∧ c.id = "Text Embed"
          ∧ (cols.foldl (embed_col_step embed title chunkTexts) acc).2
            = embed c chunkTexts := by
  induction cols with
  | nil => intro acc; exact Or.inl rfl
  | cons c cs ih =>
    intro acc
    simp only [List.foldl_cons]
    rcases ih (embed_col_step embed title chunkTexts acc c) with h | ⟨c2, hc2, hv, hid, hval⟩
    · rw [h]
      by_cases h0 : c.vlen = 0
      · exact Or.inl (by simp [embed_col_step, h0])
      · by_cases h1 : c.id = "Title Embed"
        · exact Or.inl (by simp [embed_col_step, h0, h1])
        · by_cases h2 : c.id = "Text Embed"
          · exact Or.inr ⟨c, List.mem_cons_self c cs, h0, h2,
              by simp [embed_col_step, h0, h1, h2]⟩
          · exact Or.inl (by simp [embed_col_step, h0, h1, h2])
    · exact Or.inr ⟨c2, List.mem_cons_of_mem c hc2, hv, hid, hval⟩

theorem scan_fst_absent (embed : Col → List String → List V) (title : String)
    (chunkTexts : List String) (cols : List Col)
    (habs : ∀ c ∈ cols, ¬(c.vlen ≠ 0 ∧ c.id = "Title Embed")) :
    ∀ acc : Option V × List V,
      (cols.foldl (embed_col_step embed title chunkTexts) acc).1 = acc.1 := by
  induction cols with
  | nil => intro acc; rfl
  | cons c cs ih =>
    intro acc
    simp only [List.foldl_cons]
    have hstep : (embed_col_step embed title chunkTexts acc c).1 = acc.1 := by
      have hc := habs c (List.mem_cons_self c cs)
      by_cases h0 : c.vlen = 0
      · simp [embed_col_step, h0]
      · by_cases h1 : c.id = "Title Embed"
        · exact absurd ⟨h0, h1⟩ hc
        · by_cases h2 : c.id = "Text Embed" <;> simp [embed_col_step, h0, h1, h2]
    rw [ih (fun c2 hc2 => habs c2 (List.mem_cons_of_mem c hc2)), hstep]

theorem scan_snd_absent (embed : Col → List String → List V) (title : String)
    (chunkTexts : List String) (cols : List Col)
    (habs : ∀ c ∈ cols, ¬(c.vlen ≠ 0 ∧ c.id = "Text Embed")) :
    ∀ acc : Option V × List V,
      (cols.foldl (embed_col_step embed title chunkTexts) acc).2 = acc.2 := by
  induction cols with
  | nil => intro acc; rfl
  | cons c cs ih =>
    intro acc
    simp only [List.foldl_cons]
    have hstep : (embed_col_step embed title chunkTexts acc c).2 = acc.2 := by
      have hc := habs c (List.mem_cons_self c cs)
      by_cases h0 : c.vlen = 0
      · simp [embed_col_step, h0]
      · by_cases h1 : c.id = "Title Embed"
        · simp [embed_col_step, h0, h1]
        · by_cases h2 : c.id = "Text Embed"
          · exact absurd ⟨h0, h2⟩ hc
          · simp [embed_col_step, h0, h1, h2]
    rw [ih (fun c2 hc2 => habs c2 (List.mem_cons_of_mem c hc2)), hstep]

theorem scan_filter_invariant (embed : Col → List String → List V) (title : String)
    (chunkTexts : List String) (cols : List Col) :
    ∀ acc : Option V × List V,
      cols.foldl (embed_col_step embed title chunkTexts) acc
        = (cols.filter
            (fun c => c.vlen != 0 && (c.id == "Title Embed" || c.id == "Text Embed"))).foldl
            (embed_col_step embed title chunkTexts) acc := by
  induction cols with
  | nil => intro acc; rfl
  | cons c cs ih =>
    intro acc
    by_cases hkeep : (c.vlen != 0 && (c.id == "Title Embed" || c.id == "Text Embed")) = true
    · rw [List.filter_cons]
      simp only [hkeep, if_true, List.foldl_cons]
      exact ih (embed_col_step embed title chunkTexts acc c)
    · have hkeepf := hkeep
      rw [Bool.not_eq_true] at hkeepf
      have hprop := hkeep
      simp only [Bool.and_eq_true, Bool.or_eq_true, bne_iff_ne, beq_iff_eq, not_and_or,
        not_or, not_not] at hprop
      rw [List.filter_cons]
      simp only [hkeepf, Bool.false_eq_true, if_false, List.foldl_cons]
      have hstep : embed_col_step embed title chunkTexts acc c = acc := by
        rcases hprop with h0 | ⟨h1, h2⟩
        · simp [embed_col_step, h0]
        · by_cases h0 : c.vlen = 0
          · simp [embed_col_step, h0]
          · simp [embed_col_step, h0, h1, h2]
      rw [hstep]
      exact ih acc

theorem zipWith_krow_map_text (title : String) (tE : V) (fileId : String) :
    ∀ (as : List String) (bs : List V), as.length = bs.length →
      (List.zipWith
        (fun chunk x =>
          ({ text := chunk, textEmbed := x, title := title, titleEmbed := tE,
             fileId := fileId } : KRow V)) as bs).map KRow.text = as := by
  intro as
  induction as with
  | nil => intro bs _; rfl
  | cons a as ih =>
    intro bs hlen
    cases bs with
    | nil => simp at hlen
    | cons b bs =>
      simp only [List.zipWith_cons_cons, List.map_cons, List.cons.injEq]
      exact ⟨trivial, ih bs (by simpa using hlen)⟩

theorem zipWith_krow_map_textEmbed (title : String) (tE : V) (fileId : String) :
    ∀ (as : List String) (bs : List V), as.length = bs.length →
      (List.zipWith
        (fun chunk x =>
          ({ text := chunk, textEmbed := x, title := title, titleEmbed := tE,
             fileId := fileId } : KRow V)) as bs).map KRow.textEmbed = bs := by
  intro as
  induction as with
  | nil =>
    intro bs hlen
    cases bs with
    | nil => rfl
    | cons b bs => simp at hlen
  | cons a as ih =>
    intro bs hlen
    cases bs with
    | nil => simp at hlen
    | cons b bs =>
      simp only [List.zipWith_cons_cons, List.map_cons, List.cons.injEq]
      exact ⟨trivial, ih bs (by simpa using hlen)⟩

theorem zipWith_krow_mem (title : String) (tE : V) (fileId : String) :
    ∀ (as : List String) (bs : List V) (r : KRow V),
      r ∈ List.zipWith
        (fun chunk x =>
          ({ text := chunk, textEmbed := x, title := title, titleEmbed := tE,
             fileId := fileId } : KRow V)) as bs →
      r.title = title ∧ r.titleEmbed = tE ∧ r.fileId = fileId := by
  intro as
  induction as with
  | nil => intro bs r hr; simp at hr
  | cons a as ih =>
    intro bs r hr
    cases bs with
    | nil => simp at hr
    | cons b bs =>
      simp only [List.zipWith_cons_cons, List.mem_cons] at hr
      rcases hr with rfl | hr
      · exact ⟨rfl, rfl, rfl⟩
      · exact ih bs r hr

theorem add_file_ok_elim (table_id fileId : String) (chunks : List String)
    (mn : Except OwlError (List String)) (pr : Except OwlError String)
    (embed : Col → List String → List V) (cols : List Col) (rc thr : Nat)
    (res : AddFileResult V)
    (hok : _add_file table_id fileId chunks mn pr embed cols rc thr = .ok res) :
    ∃ titleEmbed textEmbeds,
      scan_embed_cols embed (extract_title pr) chunks cols = (some titleEmbed, textEmbeds)
      ∧ textEmbeds ≠ []
      ∧ res.rows = List.zipWith
          (fun chunk x =>
            ({ text := chunk, textEmbed := x, title := extract_title pr,
               titleEmbed := titleEmbed, fileId := fileId } : KRow V)) chunks textEmbeds
      ∧ res.syncCalls = [SyncCall.addRowsCall
            { table_id := table_id, data := res.rows, stream := false, reindex := none },
          SyncCall.createIndexesCall table_id]
      ∧ res.bgTasks = (if reindex_condition none rc thr then [table_id] else []) := by
  rcases mn with e | l
  · simp [_add_file] at hok
  · rcases l with _ | ⟨m, ms⟩
    · simp [_add_file] at hok
    · simp only [_add_file] at hok
      rcases hscan : scan_embed_cols embed (extract_title pr) chunks cols with ⟨tE?, tEs⟩
      rw [hscan] at hok
      rcases tE? with _ | tE
      · simp at hok
      · dsimp only at hok
        by_cases hemp : tEs.isEmpty = true
        · rw [if_pos hemp] at hok
          simp at hok
        · rw [if_neg hemp] at hok
          injection hok with h
          subst h
          refine ⟨tE, tEs, rfl, ?_, rfl, rfl, ?_⟩
          · intro hnil
            exact hemp (by simp [hnil])
          · simp [add_rows]

theorem add_file_ok_strong (table_id fileId : String) (chunks : List String)
    (mn : Except OwlError (List String)) (pr : Except OwlError String)
    (embed : Col → List String → List V) (cols : List Col) (rc thr : Nat)
    (res : AddFileResult V)
    (hlen : ∀ c ts, (embed c ts).length = ts.length)
    (hok : _add_file table_id fileId chunks mn pr embed cols rc thr = .ok res) :
    res.syncCalls = [SyncCall.addRowsCall
        { table_id := table_id, data := res.rows, stream := false, reindex := none },
      SyncCall.createIndexesCall table_id]
    ∧ res.rows.map KRow.text = chunks
    ∧ (∃ c ∈ cols, c.vlen ≠ 0 ∧ c.id = "Text Embed"
        ∧ res.rows.map KRow.textEmbed = embed c chunks)
    ∧ (∀ r ∈ res.rows, r.title = extract_title pr ∧ r.fileId = fileId)
    ∧ (∃ c ∈ cols, c.vlen ≠ 0 ∧ c.id = "Title Embed"
        ∧ ∃ tE, (embed c [extract_title pr]).head? = some tE
            ∧ ∀ r ∈ res.rows, r.titleEmbed = tE) := by
  obtain ⟨tE, tEs, hscan, hne, hrows, hcalls, _⟩ :=
    add_file_ok_elim table_id fileId chunks mn pr embed cols rc thr res hok
  have hsnd : ∃ c ∈ cols, c.vlen ≠ 0 ∧ c.id = "Text Embed" ∧ tEs = embed c chunks := by
    rcases scan_snd_cases embed (extract_title pr) chunks cols (none, []) with h | h
    · rw [show (cols.foldl (embed_col_step embed (extract_title pr) chunks)
        ((none : Option V), ([] : List V))) = scan_embed_cols embed (extract_title pr)
          chunks cols from rfl, hscan] at h
      exact absurd h hne
    · obtain ⟨c, hcmem, hcv, hcid, hval⟩ := h
      rw [show (cols.foldl (embed_col_step embed (extract_title pr) chunks)
        ((none : Option V), ([] : List V))) = scan_embed_cols embed (extract_title pr)
          chunks cols from rfl, hscan] at hval
      exact ⟨c, hcmem, hcv, hcid, hval⟩
  obtain ⟨c, hcmem, hcv, hcid, htEs⟩ := hsnd
  have hlens : chunks.length = tEs.length := by rw [htEs, hlen]
  have hfst : ∃ c2 ∈ cols, c2.vlen ≠ 0 ∧ c2.id = "Title Embed"
      ∧ (embed c2 [extract_title pr]).head? = some tE := by
    rcases scan_fst_cases embed (extract_title pr) chunks cols (none, []) with h | h
    · rw [show (cols.foldl (embed_col_step embed (extract_title pr) chunks)
        ((none : Option V), ([] : List V))) = scan_embed_cols embed (extract_title pr)
          chunks cols from rfl, hscan] at h
      simp at h
    · obtain ⟨c2, hc2mem, hc2v, hc2id, hval⟩ := h
      rw [show (cols.foldl (embed_col_step embed (extract_title pr) chunks)
        ((none : Option V), ([] : List V))) = scan_embed_cols embed (extract_title pr)
          chunks cols from rfl, hscan] at hval
      exact ⟨c2, hc2mem, hc2v, hc2id, hval.symm⟩
  obtain ⟨c2, hc2mem, hc2v, hc2id, hhead⟩ := hfst
  refine ⟨hcalls, ?_, ⟨c, hcmem, hcv, hcid, ?_⟩, ?_, ⟨c2, hc2mem, hc2v, hc2id, tE, hhead, ?_⟩⟩
  · rw [hrows]
    exact zipWith_krow_map_text (extract_title pr) tE fileId chunks tEs hlens
  · rw [hrows, zipWith_krow_map_textEmbed (extract_title pr) tE fileId chunks tEs hlens, htEs]
  · intro r hr
    rw [hrows] at hr
    obtain ⟨h1, _, h3⟩ := zipWith_krow_mem (extract_title pr) tE fileId chunks tEs r hr
    exact ⟨h1, h3⟩
  · intro r hr
    rw [hrows] at hr
    exact (zipWith_krow_mem (extract_title pr) tE fileId chunks tEs r hr).2.1

/-- C2: a successful ingestion of a file that split into chunks, with the
embedder returning one vector per input text, submits exactly one row per
chunk in a single non-streaming add_rows request followed by a synchronous
create_indexes call; row i carries chunk i's text and chunk i's text
embedding, the same title, title embedding and registered file id on every
row. -/
theorem add_file_submission (table_id fileId : String) (chunks : List String)
    (mn : Except OwlError (List String)) (pr : Except OwlError String)
    (embed : Col → List String → List V) (cols : List Col) (rc thr : Nat)
    (res : AddFileResult V)
    (hlen : ∀ c ts, (embed c ts).length = ts.length)
    (hok : _add_file table_id fileId chunks mn pr embed cols rc thr = .ok res) :
    res.syncCalls = [SyncCall.addRowsCall
        { table_id := table_id, data := res.rows, stream := false, reindex := none },
      SyncCall.createIndexesCall table_id]
    ∧ res.rows.map KRow.text = chunks
    ∧ (∃ c ∈ cols, c.vlen ≠ 0 ∧ c.id = "Text Embed"
        ∧ res.rows.map KRow.textEmbed = embed c chunks)
    ∧ (∀ r ∈ res.rows, r.title = extract_title pr ∧ r.fileId = fileId)
    ∧ (∃ c ∈ cols, c.vlen ≠ 0 ∧ c.id = "Title Embed"
        ∧ ∃ tE, (embed c [extract_title pr]).head? = some tE
            ∧ ∀ r ∈ res.rows, r.titleEmbed = tE) :=
  add_file_ok_strong table_id fileId chunks mn pr embed cols rc thr res hlen hok

/-- C3: with the embedder returning one vector per input text, if the target
table has no embedding column named Title Embed, or none named Text Embed, or
the file produced zero chunks, _add_file raises the generic user-facing
RuntimeError and inserts nothing; any successful run inserts exactly one row
per chunk (all-or-none); and the embedding-column scan is unchanged by
dropping every embedding-capable column whose id is neither Title Embed nor
Text Embed — such columns contribute no value to the inserted rows. -/
theorem add_file_embedding_role_invariant (table_id fileId : String) (chunks : List String)
    (mn : Except OwlError (List String)) (pr : Except OwlError String)
    (embed : Col → List String → List V) (cols : List Col) (rc thr : Nat)
    (hlen : ∀ c ts, (embed c ts).length = ts.length) :
    (((¬ ∃ c ∈ cols, c.vlen ≠ 0 ∧ c.id = "Title Embed")
        ∨ (¬ ∃ c ∈ cols, c.vlen ≠ 0 ∧ c.id = "Text Embed")
        ∨ chunks = []) →
      ∀ m ms, _add_file table_id fileId chunks (.ok (m :: ms)) pr embed cols rc thr
        = .error (.runtimeError ingestErrorMsg))
    ∧ (∀ res, _add_file table_id fileId chunks mn pr embed cols rc thr = .ok res →
        res.rows.length = chunks.length)
    ∧ scan_embed_cols embed (extract_title pr) chunks cols
        = scan_embed_cols embed (extract_title pr) chunks
            (cols.filter
              (fun c => c.vlen != 0 && (c.id == "Title Embed" || c.id == "Text Embed"))) := by
  refine ⟨?_, ?_, scan_filter_invariant embed (extract_title pr) chunks cols (none, [])⟩
  · intro hbad m ms
    have htEs : (scan_embed_cols embed (extract_title pr) chunks cols).1 = none
        ∨ (scan_embed_cols embed (extract_title pr) chunks cols).2 = [] := by
      rcases hbad with h | h | h
      · exact Or.inl (scan_fst_absent embed (extract_title pr) chunks cols
          (fun c hc hcontra => h ⟨c, hc, hcontra⟩) (none, []))
      · exact Or.inr (scan_snd_absent embed (extract_title pr) chunks cols
          (fun c hc hcontra => h ⟨c, hc, hcontra⟩) (none, []))
      · subst h
        rcases scan_snd_cases embed (extract_title pr) [] cols (none, [])
          with h2 | ⟨c, _, _, _, h2⟩
        · exact Or.inr h2
        · refine Or.inr ?_
          have hz := hlen c []
          simp only [List.length_nil] at hz
          rw [show (cols.foldl (embed_col_step embed (extract_title pr) [])
            ((none : Option V), ([] : List V))).2
              = (scan_embed_cols embed (extract_title pr) [] cols).2 from rfl] at h2
          rw [h2]
          exact List.length_eq_zero.mp hz
    simp only [_add_file]
    rcases hscan : scan_embed_cols embed (extract_title pr) chunks cols with ⟨tE?, tEs⟩
    rw [hscan] at htEs
    rcases tE? with _ | tE
    · rfl
    · have htnil : tEs = [] := by
        rcases htEs with h | h
        · exact absurd h (by simp)
        · exact h
      subst htnil
      rfl
  · intro res hok
    have h := add_file_ok_strong table_id fileId chunks mn pr embed cols rc thr res hlen hok
    have hmap := congrArg List.length h.2.1
    rw [List.length_map] at hmap
    exact hmap

/-- C4: when the title-generation predict call raises, the title falls back to
the empty string and ingestion continues: a successful run still inserts one
row per chunk, each with Title equal to the empty string and a title embedding
computed over the empty string; the predict failure never surfaces (the run
can still return ok, as the hypothesis of this theorem and its witness
exhibit). -/
theorem add_file_title_fallback (table_id fileId : String) (chunks : List String)
    (m : String) (ms : List String) (e : OwlError)
    (embed : Col → List String → List V) (cols : List Col) (rc thr : Nat)
    (res : AddFileResult V)
    (hlen : ∀ c ts, (embed c ts).length = ts.length)
    (hok : _add_file table_id fileId chunks (.ok (m :: ms)) (.error e) embed cols rc thr
      = .ok res) :
    extract_title (.error e) = ""
    ∧ (∀ r ∈ res.rows, r.title = "")
    ∧ (∃ c ∈ cols, c.vlen ≠ 0 ∧ c.id = "Title Embed"
        ∧ ∃ tE, (embed c [""]).head? = some tE ∧ ∀ r ∈ res.rows, r.titleEmbed = tE)
    ∧ res.rows.length = chunks.length := by
  have h := add_file_ok_strong table_id fileId chunks (.ok (m :: ms)) (.error e) embed cols
    rc thr res hlen hok
  have hmap := congrArg List.length h.2.1
  rw [List.length_map] at hmap
  exact ⟨rfl, fun r hr => (h.2.2.2.1 r hr).1, h.2.2.2.2, hmap⟩

/-- C10: model selection for title inference sits outside the empty-title
fallback: if model_names raises, _add_file propagates that very exception, and
if it returns an empty list, taking its first element raises an IndexError; in
both cases the whole upload fails with no insertion (no success value exists),
unlike a predict failure which is caught. -/
theorem add_file_model_selection_not_covered (table_id fileId : String)
    (chunks : List String) (pr : Except OwlError String)
    (embed : Col → List String → List V) (cols : List Col) (rc thr : Nat) (e : OwlError) :
    _add_file table_id fileId chunks (.error e) pr embed cols rc thr
      = (.error e : Except OwlError (AddFileResult V))
    ∧ _add_file table_id fileId chunks (.ok []) pr embed cols rc thr
      = (.error .indexError : Except OwlError (AddFileResult V)) :=
  ⟨rfl, rfl⟩

/-- Embedder used by the concrete ingestion witnesses: one vector per input
text, each vector being the column's vlen. -/
def wEmbed (c : Col) (ts : List String) : List Nat := ts.map (fun _ => c.vlen)

/-- Column list used by the concrete ingestion witnesses. -/
def wCols : List Col :=
  [{ id := "Title Embed", vlen := 2, dtype := "float32" },
   { id := "Text Embed", vlen := 3, dtype := "float32" }]

/-- A failing predict outcome used by the concrete ingestion witnesses. -/
def wErr : OwlError := .externalError "boom"

/-- The rows produced by the concrete witness ingestion run. -/
def wRows : List (KRow Nat) :=
  [{ text := "alpha", textEmbed := 3, title := "", titleEmbed := 2, fileId := "fid" },
   { text := "beta", textEmbed := 3, title := "", titleEmbed := 2, fileId := "fid" }]

/-- The full result of the concrete witness ingestion run. -/
def wRes : AddFileResult Nat :=
  { rows := wRows
    syncCalls := [.addRowsCall { table_id := "kt", data := wRows, stream := false
                                 reindex := none },
      .createIndexesCall "kt"]
    bgTasks := ["kt"] }

/-- C2 witness: a concrete two-chunk ingestion run discharging both hypotheses
of the submission theorem. -/
theorem add_file_submission_witness :
    (∀ c ts, (wEmbed c ts).length = ts.length)
    ∧ _add_file "kt" "fid" ["alpha", "beta"] (.ok ["m"]) (.error wErr) wEmbed wCols 0 2000
        = .ok wRes
    ∧ (wRes.syncCalls = [SyncCall.addRowsCall
          { table_id := "kt", data := wRes.rows, stream := false, reindex := none },
        SyncCall.createIndexesCall "kt"]
      ∧ wRes.rows.map KRow.text = ["alpha", "beta"]
      ∧ (∃ c ∈ wCols, c.vlen ≠ 0 ∧ c.id = "Text Embed"
          ∧ wRes.rows.map KRow.textEmbed = wEmbed c ["alpha", "beta"])
      ∧ (∀ r ∈ wRes.rows, r.title = extract_title (.error wErr) ∧ r.fileId = "fid")
      ∧ (∃ c ∈ wCols, c.vlen ≠ 0 ∧ c.id = "Title Embed"
          ∧ ∃ tE, (wEmbed c [extract_title (.error wErr)]).head? = some tE
              ∧ ∀ r ∈ wRes.rows, r.titleEmbed = tE)) := by
  have hl : ∀ c ts, (wEmbed c ts).length = ts.length := fun c ts => by simp [wEmbed]
  have hk : _add_file "kt" "fid" ["alpha", "beta"] (.ok ["m"]) (.error wErr) wEmbed wCols
      0 2000 = .ok wRes := by rfl
  exact ⟨hl, hk,
    add_file_submission "kt" "fid" ["alpha", "beta"] (.ok ["m"]) (.error wErr) wEmbed wCols
      0 2000 wRes hl hk⟩

/-- C3 witness: a knowledge table with no embedding columns at all makes a
one-chunk ingestion fail with the generic RuntimeError. -/
theorem add_file_embedding_role_invariant_witness :
    (∀ c ts, (wEmbed c ts).length = ts.length)
    ∧ (¬ ∃ c ∈ ([] : List Col), c.vlen ≠ 0 ∧ c.id = "Title Embed")
    ∧ _add_file "kt" "fid" ["a"] (.ok ["m"]) (.error wErr) wEmbed ([] : List Col) 0 2000
        = .error (.runtimeError ingestErrorMsg) := by
  have hl : ∀ c ts, (wEmbed c ts).length = ts.length := fun c ts => by simp [wEmbed]
  have hb : ¬ ∃ c ∈ ([] : List Col), c.vlen ≠ 0 ∧ c.id = "Title Embed" := by simp
  exact ⟨hl, hb,
    (add_file_embedding_role_invariant "kt" "fid" ["a"] (.ok ["m"]) (.error wErr) wEmbed []
      0 2000 hl).1 (Or.inl hb) "m" []⟩

/-- C4 witness: the concrete witness run has a failing predict call, yet
returns ok, with both rows carrying the empty title and the title embedding of
the empty string. -/
theorem add_file_title_fallback_witness :
    (∀ c ts, (wEmbed c ts).length = ts.length)
    ∧ _add_file "kt" "fid" ["alpha", "beta"] (.ok ["m"]) (.error wErr) wEmbed wCols 0 2000
        = .ok wRes
    ∧ (extract_title (.error wErr) = ""
      ∧ (∀ r ∈ wRes.rows, r.title = "")
      ∧ (∃ c ∈ wCols, c.vlen ≠ 0 ∧ c.id = "Title Embed"
          ∧ ∃ tE, (wEmbed c [""]).head? = some tE ∧ ∀ r ∈ wRes.rows, r.titleEmbed = tE)
      ∧ wRes.rows.length = (["alpha", "beta"] : List String).length) := by
  have hl : ∀ c ts, (wEmbed c ts).length = ts.length := fun c ts => by simp [wEmbed]
  have hk : _add_file "kt" "fid" ["alpha", "beta"] (.ok ["m"]) (.error wErr) wEmbed wCols
      0 2000 = .ok wRes := by rfl
  exact ⟨hl, hk,
    add_file_title_fallback "kt" "fid" ["alpha", "beta"] "m" [] wErr wEmbed wCols
      0 2000 wRes hl hk⟩

/-! ## Upload checksum (upload_file) -/

/-- The block size of upload_file's checksum loop, 2 ** 10 bytes. -/
def upload_block_size : Nat := 2 ^ 10

/-- The successive slices content[i : i + b] fed to hasher.update by the loop
for i in range(0, len(content), block_size).  The b = 0 branch is unreachable
in the source (the block size is the constant 1024). -/
def toBlocks (b : Nat) (l : List Nat) : List (List Nat) :=
  if h : l = [] ∨ b = 0 then [] else l.take b :: toBlocks b (l.drop b)
termination_by l.length
decreasing_by
  push_neg at h
  have hpos : 0 < l.length := List.length_pos.mpr h.1
  simp only [List.length_drop]
  omega

/-- One hasher.update call: blake2b absorbs the given bytes after the bytes
absorbed so far. -/
def hasher_update (state bytes : List Nat) : List Nat := state ++ bytes

/-- The checksum registered by upload_file: an abstract digest function H
(blake2b's compression, out of scope) applied to the byte stream absorbed by
feeding every block to hasher.update in order. -/
def upload_checksum (H : List Nat → List Nat) (content : List Nat) (b : Nat) : List Nat :=
  H ((toBlocks b content).foldl hasher_update [])

theorem foldl_hasher_update (blocks : List (List Nat)) :
    ∀ init, blocks.foldl hasher_update init = init ++ blocks.flatten := by
  induction blocks with
  | nil => intro init; simp
  | cons bl bls ih =>
    intro init
    simp only [List.foldl_cons, List.flatten_cons, ih, hasher_update]
    rw [List.append_assoc]

theorem toBlocks_flatten_aux (b : Nat) (hb : 0 < b) :
    ∀ (n : Nat) (l : List Nat), l.length ≤ n → (toBlocks b l).flatten = l := by
  intro n
  induction n with
  | zero =>
    intro l hl
    have hnil : l = [] := List.eq_nil_of_length_eq_zero (Nat.le_zero.mp hl)
    subst hnil
    rw [toBlocks]
    simp
  | succ n ih =>
    intro l hl
    rw [toBlocks]
    split
    · rename_i h
      rcases h with h | h
      · simp [h]
      · omega
    · rename_i h
      push_neg at h
      simp only [List.flatten_cons]
      have hpos : 0 < l.length := List.length_pos.mpr h.1
      rw [ih (l.drop b) (by simp only [List.length_drop]; omega)]
      exact List.take_append_drop b l

theorem toBlocks_flatten (b : Nat) (hb : 0 < b) (l : List Nat) :
    (toBlocks b l).flatten = l :=
  toBlocks_flatten_aux b hb l.length l le_rfl

/-- C8: the registered checksum is a function of the byte content only: for
every content (the empty one included) and every positive block size, the
blocked hasher absorbs exactly the content, so the digest equals the
single-update digest, and any two block sizes give identical digests; the
source's block size is 1024. -/
theorem upload_checksum_block_invariance (H : List Nat → List Nat) (content : List Nat)
    (b1 b2 : Nat) (h1 : 0 < b1) (h2 : 0 < b2) :
    upload_checksum H content b1 = H content
    ∧ upload_checksum H content b1 = upload_checksum H content b2
    ∧ upload_block_size = 1024 := by
  have key : ∀ b, 0 < b → upload_checksum H content b = H content := by
    intro b hb
    unfold upload_checksum
    rw [foldl_hasher_update, toBlocks_flatten b hb content, List.nil_append]
  exact ⟨key b1 h1, (key b1 h1).trans (key b2 h2).symm, rfl⟩

/-- C8 witness: block sizes 2 and 3 on a five-byte content, with the digest
function taken as the identity. -/
theorem upload_checksum_block_invariance_witness :
    (0 : Nat) < 2 ∧ (0 : Nat) < 3
    ∧ (upload_checksum id [1, 2, 3, 4, 5] 2 = id [1, 2, 3, 4, 5]
      ∧ upload_checksum id [1, 2, 3, 4, 5] 2 = upload_checksum id [1, 2, 3, 4, 5] 3
      ∧ upload_block_size = 1024) :=
  ⟨by decide, by decide,
    upload_checksum_block_invariance id [1, 2, 3, 4, 5] 2 3 (by decide) (by decide)⟩

/-! ## Embedding normalization (_embed)

The numpy floating-point arithmetic is idealized over the reals; the spec's
floating tolerance corresponds to exact equality here. -/

/-- The L2 norm of one vector, np.linalg.norm of a row. -/
noncomputable def l2norm (v : List ℝ) : ℝ := Real.sqrt ((v.map (fun x => x ^ 2)).sum)

/-- One row of embeddings / np.linalg.norm(embeddings, axis=1, keepdims=True):
every entry divided by the row's own L2 norm. -/
noncomputable def normalize_row (v : List ℝ) : List ℝ := v.map (fun x => x / l2norm v)

/-- The _embed helper: call the embedding collaborator on the texts, then
L2-normalize each returned row. -/
noncomputable def _embed (embedDocuments : List String → List (List ℝ))
    (texts : List String) : List (List ℝ) :=
  (embedDocuments texts).map normalize_row

theorem sum_sq_nonneg (v : List ℝ) : 0 ≤ (v.map (fun x => x ^ 2)).sum := by
  apply List.sum_nonneg
  intro x hx
  simp only [List.mem_map] at hx
  obtain ⟨y, _, rfl⟩ := hx
  positivity

theorem l2norm_pos_of_nonzero (v : List ℝ) (x : ℝ) (hx : x ∈ v) (hx0 : x ≠ 0) :
    0 < l2norm v := by
  have hmem : x ^ 2 ∈ v.map (fun y => y ^ 2) := List.mem_map_of_mem _ hx
  have hle : x ^ 2 ≤ (v.map (fun y => y ^ 2)).sum := by
    apply List.single_le_sum _ _ hmem
    intro y hy
    simp only [List.mem_map] at hy
    obtain ⟨z, _, rfl⟩ := hy
    positivity
  have hpos : 0 < (v.map (fun y => y ^ 2)).sum :=
    lt_of_lt_of_le (by positivity) hle
  exact Real.sqrt_pos.mpr hpos

theorem l2norm_normalize_row (v : List ℝ) (hv : l2norm v ≠ 0) :
    l2norm (normalize_row v) = 1 := by
  have hs : (v.map (fun x => x ^ 2)).sum = l2norm v ^ 2 := by
    rw [l2norm, Real.sq_sqrt (sum_sq_nonneg v)]
  rw [l2norm, normalize_row, List.map_map]
  have hcomp : ((fun x => x ^ 2) ∘ fun x => x / l2norm v)
      = fun x => x ^ 2 * (1 / l2norm v ^ 2) := by
    funext x
    simp only [Function.comp_apply, div_pow]
    field_simp
  rw [hcomp, List.sum_map_mul_right, ← hs]
  rw [hs]
  rw [mul_one_div, div_self (pow_ne_zero 2 hv), Real.sqrt_one]

/-- C9: every vector produced by _embed — hence every stored title or text
embedding — has L2 norm exactly 1 in the real-arithmetic idealization,
provided the upstream embedder returned a vector with a nonzero entry for
each input text. -/
theorem embed_unit_norm (embedDocuments : List String → List (List ℝ))
    (texts : List String)
    (hnz : ∀ v ∈ embedDocuments texts, ∃ x ∈ v, x ≠ 0) :
    ∀ w ∈ _embed embedDocuments texts, l2norm w = 1 := by
  intro w hw
  simp only [_embed, List.mem_map] at hw
  obtain ⟨v, hv, rfl⟩ := hw
  obtain ⟨x, hx, hx0⟩ := hnz v hv
  exact l2norm_normalize_row v (ne_of_gt (l2norm_pos_of_nonzero v x hx hx0))

/-- C9 witness: the embedder returning the single vector (3, 4) for the single
text. -/
theorem embed_unit_norm_witness :
    (∀ v ∈ (fun (_ : List String) => [[(3 : ℝ), 4]]) ["t"], ∃ x ∈ v, x ≠ 0)
    ∧ ∀ w ∈ _embed (fun (_ : List String) => [[(3 : ℝ), 4]]) ["t"], l2norm w = 1 := by
  have h : ∀ v ∈ (fun (_ : List String) => [[(3 : ℝ), 4]]) ["t"], ∃ x ∈ v, x ≠ 0 := by
    intro v hv
    simp only [List.mem_singleton] at hv
    subst hv
    exact ⟨3, by simp, by norm_num⟩
  exact ⟨h, embed_unit_norm (fun (_ : List String) => [[(3 : ℝ), 4]]) ["t"] h⟩

end GenTable
